import Mathlib

/-!
Shallow embedding of the FinDash transactions store
(src/findash/transactions_db.py) and proofs about its claimed properties.

Modelling conventions:
* A pandas DataFrame of transactions is a `List Row` (row order = concat order).
* The parquet file tree (one file per (year, month)) is an association list
  `Files` keyed by `(year, month)`; writing a parquet file replaces the entry
  with that key or creates it.
* Python floats carry only exact decimal literals in this code, so numeric
  cells are modelled as `Rat`; ids produced by the external `create_uuid`
  collaborator are opaque unique tokens, modelled as `Nat` drawn from a
  counter `next` (uuids are only ever compared for equality).
* Raising an exception is modelled with `Except DBErr`; each operation of the
  source mutates `self._db` only after the point where it can raise, so an
  error result leaves the state unchanged (`runOp` makes this explicit).
* `pd.to_datetime` interpretation of raw numeric values as epoch offsets and
  `astype(float)` parsing of numeric strings are not modelled; the claims
  never exercise those coercions, and the corresponding raw values are
  simply rejected by the model coercions.
-/

namespace FinDash

/-- Calendar date, the part of a pandas datetime the store ever inspects
(`.dt.year`, `.dt.month`, plus the day for record identity). -/
structure Date where
  year : Nat
  month : Nat
  day : Nat
deriving DecidableEq

/-- A raw cell value as it can occur in a DataFrame handed to `insert_data`
before dtype coercion. `noneV` is Python `None` / missing value. -/
inductive RawVal where
  | str (s : String)
  | num (q : Rat)
  | boolean (b : Bool)
  | dateV (d : Date)
  | noneV
deriving DecidableEq

/-- One row of the unified in-memory table after `_apply_dtypes`:
date parsed, inflow/outflow/amount numeric, reconciled boolean,
cat/account categorical (`Option.none` = NaN category).  payee and memo are
never coerced by the source, so they keep their raw value
(`Option.none` = column absent / NaN). -/
structure Row where
  id : Nat
  date : Date
  payee : Option RawVal
  cat : Option RawVal
  memo : Option RawVal
  account : Option RawVal
  inflow : Rat
  outflow : Rat
  reconciled : Bool
  amount : Rat
deriving DecidableEq

/-- A raw input row for `insert_data`: each schema column is either absent
(`Option.none`, the column is missing from the DataFrame) or holds a raw
value. There is no id field: `_add_uuids` overwrites the id column
unconditionally, so a caller-supplied id is never observable. -/
structure RawRow where
  date : Option RawVal
  payee : Option RawVal
  cat : Option RawVal
  memo : Option RawVal
  account : Option RawVal
  inflow : Option RawVal
  outflow : Option RawVal
  reconciled : Option RawVal
  amount : Option RawVal
deriving DecidableEq

/-- Errors the store can raise: pandas KeyError (missing column), a dtype
coercion failure, IndexError from `.iloc[0]` on an empty selection, and the
NotImplementedError of `disconnect`. -/
inductive DBErr where
  | keyError
  | coerceError
  | indexError
  | notImplemented
deriving DecidableEq

-- The schema registry `TransactionsDBSchema` (column names and defaults).
namespace TransactionsDBSchema

def ID : String := "id"
def DATE : String := "date"
def PAYEE : String := "payee"
def CAT : String := "cat"
def MEMO : String := "memo"
def ACCOUNT : String := "account"
def INFLOW : String := "inflow"
def OUTFLOW : String := "outflow"
def RECONCILED : String := "reconciled"
def AMOUNT : String := "amount"

/-- Mandatory cols every raw transactions file must have. -/
def get_mandatory_cols : List String := [DATE, PAYEE, AMOUNT]

/-- Non-mandatory cols with the default values used to align a raw file
with the DB schema. -/
def get_non_mandatory_cols : List (String × RawVal) :=
  [(CAT, .str ""), (MEMO, .str ""), (ACCOUNT, .noneV),
   (INFLOW, .num 0), (OUTFLOW, .num 0), (RECONCILED, .boolean false)]

/-- Field names of the dataclass (what `fields(cls)` yields as `.name`). -/
def get_db_col_names : List String :=
  ["ID", "DATE", "PAYEE", "CAT", "MEMO", "ACCOUNT", "INFLOW", "OUTFLOW",
   "RECONCILED", "AMOUNT"]

/-- Field defaults of the dataclass (the column name strings). -/
def get_db_col_vals : List String :=
  [ID, DATE, PAYEE, CAT, MEMO, ACCOUNT, INFLOW, OUTFLOW, RECONCILED, AMOUNT]

def get_numeric_cols : List String := [INFLOW, OUTFLOW, AMOUNT]

end TransactionsDBSchema

/-- The on-disk parquet partition tree: one entry per (year, month) file. -/
abbrev Files := List ((Nat × Nat) × List Row)

/-- Whether a partition file with the given (year, month) key exists. -/
def hasKeyB (fs : Files) (ym : Nat × Nat) : Bool :=
  fs.any (fun e => decide (e.1 = ym))

/-- Write (create or overwrite in full) the parquet file of one partition,
as `DataFrame.to_parquet` does at path root/year/month.pq. -/
def writeFile (fs : Files) (ym : Nat × Nat) (rows : List Row) : Files :=
  if hasKeyB fs ym then
    fs.map (fun e => if e.1 = ym then (ym, rows) else e)
  else
    fs ++ [(ym, rows)]

/-- Read the current content of one partition file, if it exists. -/
def lookupFile (fs : Files) (ym : Nat × Nat) : Option (List Row) :=
  (fs.find? (fun e => decide (e.1 = ym))).map Prod.snd

/-- The rows of the table whose date falls in the given (year, month): the
mask `(dt.year == year) & (dt.month == month)` of `save_db`. -/
def rowsOfMonth (db : List Row) (ym : Nat × Nat) : List Row :=
  db.filter (fun r => decide (r.date.year = ym.1 ∧ r.date.month = ym.2))

/-- Folding `to_parquet` over a list of months: each file is overwritten with
exactly the current in-memory rows of its month. -/
def saveFiles (fs : Files) (db : List Row) (ms : List (Nat × Nat)) : Files :=
  ms.foldl (fun acc ym => writeFile acc ym (rowsOfMonth db ym)) fs

/-- State of a `TransactionsDBParquet` store plus its file system and the
state of the external uuid generator: `next` is the next fresh id
(`create_uuid` never repeats an id, so every id it has ever handed out is
below `next`). -/
structure DBState where
  db : List Row
  files : Files
  next : Nat
deriving DecidableEq

/-- The `connect` load: read every partition file under the root and
concatenate the fragments into one unified table (empty root gives an
empty table). -/
def connect (files : Files) : List Row :=
  (files.map Prod.snd).flatten

/-- A store as it exists right after construction: the in-memory table is
the concatenation of the partition files on disk. -/
def connectState (files : Files) (next : Nat) : DBState :=
  { db := connect files, files := files, next := next }

/-- The `disconnect` method: unconditionally raises NotImplementedError
(it consists of a single raise statement, so nothing is mutated). -/
def disconnect (_s : DBState) : Except DBErr DBState :=
  .error .notImplemented

/-- The `update_data` method: a pass statement, no effect. -/
def update_data (s : DBState) : DBState := s

/-- The `save_db` method: for each (year, month) overwrite that partition
file with the rows of the in-memory table falling in that month. -/
def save_db (s : DBState) (months_to_save : List (Nat × Nat)) : DBState :=
  { s with files := saveFiles s.files s.db months_to_save }

/-- The `_get_months_from_uuid` method: for each uuid take the date of the
first row with that id (IndexError via `.iloc[0]` if there is none) and
collect the deduplicated (year, month) pairs. -/
def _get_months_from_uuid (db : List Row) : List Nat → Except DBErr (List (Nat × Nat))
  | [] => .ok []
  | u :: us =>
    match db.find? (fun r => decide (r.id = u)) with
    | Option.none => .error .indexError
    | Option.some r =>
      match _get_months_from_uuid db us with
      | .error e => .error e
      | .ok ms =>
        .ok (if (r.date.year, r.date.month) ∈ ms then ms
             else (r.date.year, r.date.month) :: ms)

/-- The `save_db_from_uuid` method: derive the months of the given uuids and
delegate to `save_db`. -/
def save_db_from_uuid (s : DBState) (uuid_list : List Nat) : Except DBErr DBState :=
  match _get_months_from_uuid s.db uuid_list with
  | .error e => .error e
  | .ok ms => .ok (save_db s ms)

/-- The `get_data_by_id` method: all rows whose id is in the list, in table
order (`isin` mask). -/
def get_data_by_id (s : DBState) (uuid_list : List Nat) : List Row :=
  s.db.filter (fun r => decide (r.id ∈ uuid_list))

/-- One column/value equality filter of `get_data_by_col_val`, with the value
typed by its schema column. -/
inductive ColFilter where
  | idF (v : Nat)
  | dateF (v : Date)
  | payeeF (v : Option RawVal)
  | catF (v : Option RawVal)
  | memoF (v : Option RawVal)
  | accountF (v : Option RawVal)
  | inflowF (v : Rat)
  | outflowF (v : Rat)
  | reconciledF (v : Bool)
  | amountF (v : Rat)

/-- The equality mask `db_tmp[col] == val` for one filter. -/
def matchesFilter (f : ColFilter) (r : Row) : Bool :=
  match f with
  | .idF v => decide (r.id = v)
  | .dateF v => decide (r.date = v)
  | .payeeF v => decide (r.payee = v)
  | .catF v => decide (r.cat = v)
  | .memoF v => decide (r.memo = v)
  | .accountF v => decide (r.account = v)
  | .inflowF v => decide (r.inflow = v)
  | .outflowF v => decide (r.outflow = v)
  | .reconciledF v => decide (r.reconciled = v)
  | .amountF v => decide (r.amount = v)

/-- The `get_data_by_col_val` method: successive equality masks, one per
entry of the dict (intersection semantics). -/
def get_data_by_col_val (s : DBState) (col_val_dict : List ColFilter) : List Row :=
  col_val_dict.foldl (fun db_tmp f => db_tmp.filter (matchesFilter f)) s.db

/-- The `pd.to_datetime` coercion of a raw date cell, on the fragment of its
behavior the store relies on (datetime values and ISO strings). -/
def toDatetime : RawVal → Option Date
  | .dateV d => Option.some d
  | .str s => parseDate s
  | _ => Option.none
where
  /-- Parse a YYYY-MM-DD string. -/
  parseDate (s : String) : Option Date :=
    match (s.splitOn dash).map String.toNat? with
    | [Option.some y, Option.some m, Option.some d] =>
      if 1 ≤ m ∧ m ≤ 12 ∧ 1 ≤ d ∧ d ≤ 31 then Option.some ⟨y, m, d⟩
      else Option.none
    | _ => Option.none
  dash : String := "-"

/-- The `astype(bool)` coercion: Python truthiness, total. -/
def coerceBool : RawVal → Bool
  | .boolean b => b
  | .num q => decide (q ≠ 0)
  | .str s => decide (s ≠ "")
  | .dateV _ => true
  | .noneV => false

/-- The `astype(float)` coercion on the raw values the store feeds it. -/
def coerceFloat : RawVal → Option Rat
  | .num q => Option.some q
  | .boolean b => Option.some (if b then 1 else 0)
  | _ => Option.none

/-- The `astype(category)` coercion: values are kept, None becomes the NaN
category. -/
def coerceCat : RawVal → Option RawVal
  | .noneV => Option.none
  | v => Option.some v

/-- Reading a column of the raw row raises KeyError when it is absent. -/
def getCol : Option RawVal → Except DBErr RawVal
  | Option.none => .error .keyError
  | Option.some v => .ok v

/-- Coercion to float, failing with a dtype error. -/
def coerceFloatE (v : RawVal) : Except DBErr Rat :=
  match coerceFloat v with
  | Option.some q => .ok q
  | Option.none => .error .coerceError

/-- The `_apply_dtypes` static method, with the id column (already assigned
by `_add_uuids`) passed through.  Columns are read and coerced in source
order: date, reconciled, inflow, outflow, amount, cat, account; payee and
memo are untouched. -/
def _apply_dtypes (i : Nat) (r : RawRow) : Except DBErr Row := do
  let dv ← getCol r.date
  let d ← match toDatetime dv with
    | Option.some d => Except.ok d
    | Option.none => Except.error DBErr.coerceError
  let rv ← getCol r.reconciled
  let iv ← getCol r.inflow
  let infl ← coerceFloatE iv
  let ov ← getCol r.outflow
  let outf ← coerceFloatE ov
  let av ← getCol r.amount
  let amt ← coerceFloatE av
  let cv ← getCol r.cat
  let acv ← getCol r.account
  Except.ok { id := i, date := d, payee := r.payee, cat := coerceCat cv,
              memo := r.memo, account := coerceCat acv, inflow := infl,
              outflow := outf, reconciled := coerceBool rv, amount := amt }

/-- The `_add_uuids` static method: one fresh `create_uuid` per row,
assigned to the id column regardless of any caller-supplied id. -/
def _add_uuids (next : Nat) : List RawRow → List (Nat × RawRow)
  | [] => []
  | r :: rs => (next, r) :: _add_uuids (next + 1) rs

/-- Row-wise `_apply_dtypes` over the id-annotated frame. -/
def applyDtypesList : List (Nat × RawRow) → Except DBErr (List Row)
  | [] => .ok []
  | (i, r) :: rs =>
    match _apply_dtypes i r with
    | .error e => .error e
    | .ok row =>
      match applyDtypesList rs with
      | .error e => .error e
      | .ok rest => .ok (row :: rest)

/-- The `insert_data` method: assign fresh uuids, coerce dtypes, append to
the in-memory table, then rewrite exactly the partitions of the new ids. -/
def insert_data (s : DBState) (rows : List RawRow) : Except DBErr DBState :=
  let withIds := _add_uuids s.next rows
  match applyDtypesList withIds with
  | .error e => .error e
  | .ok newRows =>
    let s1 : DBState :=
      { db := s.db ++ newRows, files := s.files, next := s.next + rows.length }
    save_db_from_uuid s1 (newRows.map Row.id)

/-- The `insert_record` method: append the pre-built, pre-identified record
(no uuid generation, no coercion) and rewrite the partition of its id. -/
def insert_record (s : DBState) (r : Row) : Except DBErr DBState :=
  let s1 : DBState := { s with db := s.db ++ [r] }
  save_db_from_uuid s1 [r.id]

/-- The `delete_data` method: months are derived from the uuids BEFORE the
rows are removed, then the matching rows are dropped and exactly those
months rewritten. -/
def delete_data (s : DBState) (uuid_list : List Nat) : Except DBErr DBState :=
  match _get_months_from_uuid s.db uuid_list with
  | .error e => .error e
  | .ok ms =>
    let s1 : DBState := { s with db := s.db.filter (fun r => !decide (r.id ∈ uuid_list)) }
    .ok (save_db s1 ms)

/-- A mutating call against the store. -/
inductive Op where
  | insertData (rows : List RawRow)
  | insertRecord (r : Row)
  | deleteData (uuids : List Nat)

/-- Big-step execution of one call.  On an error result the store is
unchanged: in the source each of these methods raises, when it raises,
strictly before assigning `self._db` or writing any file. -/
def runOp (s : DBState) : Op → DBState
  | .insertData rows =>
    match insert_data s rows with
    | .ok s1 => s1
    | .error _ => s
  | .insertRecord r =>
    match insert_record s r with
    | .ok s1 => s1
    | .error _ => s
  | .deleteData us =>
    match delete_data s us with
    | .ok s1 => s1
    | .error _ => s

/-- Execution of a call sequence. -/
def run : DBState → List Op → DBState
  | s, [] => s
  | s, op :: ops => run (runOp s op) ops

/-- Environment contract of one call: a record handed to `insert_record` is
pre-identified by the external `create_uuid` collaborator, so its id was
handed out earlier (below the generator counter) and is not currently in
the table. -/
def okOpB (s : DBState) : Op → Bool
  | .insertRecord r => !decide (r.id ∈ s.db.map Row.id) && decide (r.id < s.next)
  | _ => true

/-- The environment contract along a whole call sequence. -/
def okRunB : DBState → List Op → Bool
  | _, [] => true
  | s, op :: ops => okOpB s op && okRunB (runOp s op) ops

/-- The partition-decomposition invariant: file keys are distinct, every
file holds exactly the rows of its month, and every table row has a file
for its month. -/
def partitioned (s : DBState) : Prop :=
  (s.files.map Prod.fst).Nodup ∧
  (∀ e ∈ s.files, e.2 = rowsOfMonth s.db e.1) ∧
  (∀ r ∈ s.db, hasKeyB s.files (r.date.year, r.date.month) = true)

/-- The full store invariant: partition decomposition, distinct row ids, and
all row ids already handed out by the uuid generator. -/
def dbInv (s : DBState) : Prop :=
  partitioned s ∧ (s.db.map Row.id).Nodup ∧ ∀ r ∈ s.db, r.id < s.next

instance (s : DBState) : Decidable (partitioned s) := by
  unfold partitioned
  infer_instance

instance (s : DBState) : Decidable (dbInv s) := by
  unfold dbInv
  infer_instance

/-! Lemmas about the file-system model. -/

lemma hasKeyB_iff (fs : Files) (ym : Nat × Nat) :
    hasKeyB fs ym = true ↔ ∃ e ∈ fs, e.1 = ym := by
  simp [hasKeyB]

lemma lookupFile_writeFile_self (fs : Files) (ym : Nat × Nat) (rows : List Row) :
    lookupFile (writeFile fs ym rows) ym = Option.some rows := by
  unfold writeFile
  by_cases h : hasKeyB fs ym = true
  · simp only [h, if_true, lookupFile]
    induction fs with
    | nil => simp [hasKeyB] at h
    | cons e fs ih =>
      by_cases he : e.1 = ym
      · simp [List.find?, he]
      · have h2 : hasKeyB fs ym = true := by
          rcases (hasKeyB_iff _ _).1 h with ⟨e1, he1, hk⟩
          rcases List.mem_cons.1 he1 with rfl | hmem
          · exact absurd hk he
          · exact (hasKeyB_iff _ _).2 ⟨e1, hmem, hk⟩
        simpa [List.find?, he] using ih h2
  · simp only [h, if_false, Bool.false_eq_true, lookupFile, List.find?_append]
    have hnone : fs.find? (fun e => decide (e.1 = ym)) = Option.none := by
      rw [List.find?_eq_none]
      intro e he
      simp only [decide_eq_true_eq]
      intro hk
      exact h ((hasKeyB_iff _ _).2 ⟨e, he, hk⟩)
    simp [hnone, List.find?]

lemma find?_map_keep (fs : Files) (ym ym1 : Nat × Nat) (rows : List Row) (h : ym1 ≠ ym) :
    (fs.map (fun e => if e.1 = ym then ((ym, rows) : (Nat × Nat) × List Row) else e)).find?
        (fun e => decide (e.1 = ym1))
      = fs.find? (fun e => decide (e.1 = ym1)) := by
  induction fs with
  | nil => rfl
  | cons e fs ih =>
    rw [List.map_cons]
    by_cases he : e.1 = ym
    · rw [if_pos he]
      have h2 : ¬ (e.1 = ym1) := by rw [he]; exact fun hh => h hh.symm
      have h1 : ¬ (ym = ym1) := fun hh => h hh.symm
      simp [h1, h2, ih]
    · rw [if_neg he]
      by_cases he1 : e.1 = ym1
      · simp [he1]
      · simp [he1, ih]

lemma lookupFile_writeFile_ne (fs : Files) (ym ym1 : Nat × Nat) (rows : List Row)
    (h : ym1 ≠ ym) :
    lookupFile (writeFile fs ym rows) ym1 = lookupFile fs ym1 := by
  unfold writeFile
  by_cases hk : hasKeyB fs ym = true
  · simp only [hk, if_true, lookupFile]
    rw [find?_map_keep _ _ _ _ h]
  · simp only [hk, if_false, Bool.false_eq_true, lookupFile, List.find?_append]
    have hnone : List.find? (fun e => decide (e.1 = ym1)) [((ym, rows) : (Nat × Nat) × List Row)]
        = Option.none := by
      refine List.find?_eq_none.2 ?_
      intro e he
      simp only [List.mem_singleton] at he
      subst he
      simp only [decide_eq_true_eq]
      exact fun hh => h hh.symm
    rw [hnone]
    rcases hfind : fs.find? (fun e => decide (e.1 = ym1)) with _ | e <;> simp

lemma mem_writeFile (fs : Files) (ym : Nat × Nat) (rows : List Row) (e : (Nat × Nat) × List Row)
    (h : e ∈ writeFile fs ym rows) :
    e = (ym, rows) ∨ (e ∈ fs ∧ e.1 ≠ ym) := by
  unfold writeFile at h
  by_cases hk : hasKeyB fs ym = true
  · simp only [hk, if_true] at h
    rcases List.mem_map.1 h with ⟨e1, he1, heq⟩
    by_cases he : e1.1 = ym
    · rw [if_pos he] at heq
      exact Or.inl heq.symm
    · rw [if_neg he] at heq
      subst heq
      exact Or.inr ⟨he1, he⟩
  · simp only [hk, if_false, Bool.false_eq_true] at h
    rcases List.mem_append.1 h with hmem | hmem
    · refine Or.inr ⟨hmem, fun hke => ?_⟩
      exact hk ((hasKeyB_iff _ _).2 ⟨e, hmem, hke⟩)
    · simp only [List.mem_singleton] at hmem
      exact Or.inl hmem

lemma hasKeyB_writeFile (fs : Files) (ym ym1 : Nat × Nat) (rows : List Row) :
    hasKeyB (writeFile fs ym rows) ym1 = (hasKeyB fs ym1 || decide (ym1 = ym)) := by
  rw [Bool.eq_iff_iff]
  simp only [Bool.or_eq_true, decide_eq_true_eq]
  constructor
  · intro h
    rcases (hasKeyB_iff _ _).1 h with ⟨e, he, hke⟩
    rcases mem_writeFile _ _ _ _ he with heq | ⟨hmem, _⟩
    · subst heq
      exact Or.inr hke.symm
    · exact Or.inl ((hasKeyB_iff _ _).2 ⟨e, hmem, hke⟩)
  · intro h
    unfold writeFile
    by_cases hk : hasKeyB fs ym = true
    · simp only [hk, if_true]
      rcases h with h | h
      · rcases (hasKeyB_iff _ _).1 h with ⟨e, he, hke⟩
        by_cases hek : e.1 = ym
        · refine (hasKeyB_iff _ _).2 ⟨(ym, rows), List.mem_map.2 ⟨e, he, by rw [if_pos hek]⟩, ?_⟩
          rw [← hek, hke]
        · exact (hasKeyB_iff _ _).2 ⟨e, List.mem_map.2 ⟨e, he, by rw [if_neg hek]⟩, hke⟩
      · subst h
        rcases (hasKeyB_iff _ _).1 hk with ⟨e, he, hke⟩
        exact (hasKeyB_iff _ _).2 ⟨(ym1, rows), List.mem_map.2 ⟨e, he, by rw [if_pos hke]⟩, rfl⟩
    · simp only [hk, if_false, Bool.false_eq_true]
      rcases h with h | h
      · rcases (hasKeyB_iff _ _).1 h with ⟨e, he, hke⟩
        exact (hasKeyB_iff _ _).2 ⟨e, List.mem_append_left _ he, hke⟩
      · subst h
        exact (hasKeyB_iff _ _).2 ⟨(ym1, rows), List.mem_append_right _ (by simp), rfl⟩

lemma keys_writeFile_nodup (fs : Files) (ym : Nat × Nat) (rows : List Row)
    (h : (fs.map Prod.fst).Nodup) :
    ((writeFile fs ym rows).map Prod.fst).Nodup := by
  unfold writeFile
  by_cases hk : hasKeyB fs ym = true
  · simp only [hk, if_true]
    have heq : (fs.map (fun e => if e.1 = ym then ((ym, rows) : (Nat × Nat) × List Row) else e)).map Prod.fst
        = fs.map Prod.fst := by
      rw [List.map_map]
      refine List.map_congr_left ?_
      intro e _
      by_cases he : e.1 = ym <;> simp [he]
    rwa [heq]
  · simp only [hk, if_false, Bool.false_eq_true, List.map_append]
    simp only [List.map_cons, List.map_nil]
    refine List.Nodup.append h (List.nodup_singleton ym) ?_
    intro k hk1 hk2
    simp only [List.mem_singleton] at hk2
    subst hk2
    rcases List.mem_map.1 hk1 with ⟨e, he, hke⟩
    exact hk ((hasKeyB_iff _ _).2 ⟨e, he, hke⟩)

lemma saveFiles_nil (fs : Files) (db : List Row) : saveFiles fs db [] = fs := rfl

lemma saveFiles_cons (fs : Files) (db : List Row) (ym : Nat × Nat) (ms : List (Nat × Nat)) :
    saveFiles fs db (ym :: ms) = saveFiles (writeFile fs ym (rowsOfMonth db ym)) db ms := rfl

lemma lookupFile_saveFiles_not_mem (fs : Files) (db : List Row) (ms : List (Nat × Nat))
    (ym : Nat × Nat) (h : ym ∉ ms) :
    lookupFile (saveFiles fs db ms) ym = lookupFile fs ym := by
  induction ms generalizing fs with
  | nil => rfl
  | cons m ms ih =>
    rw [saveFiles_cons]
    have hne : ym ≠ m := fun hh => h (hh ▸ List.mem_cons_self m ms)
    rw [ih _ (fun hh => h (List.mem_cons_of_mem m hh)), lookupFile_writeFile_ne _ _ _ _ hne]

lemma lookupFile_saveFiles_mem (fs : Files) (db : List Row) (ms : List (Nat × Nat))
    (ym : Nat × Nat) (h : ym ∈ ms) :
    lookupFile (saveFiles fs db ms) ym = Option.some (rowsOfMonth db ym) := by
  induction ms generalizing fs with
  | nil => exact absurd h (List.not_mem_nil ym)
  | cons m ms ih =>
    rw [saveFiles_cons]
    by_cases hm : ym ∈ ms
    · exact ih _ hm
    · have : ym = m := by
        rcases List.mem_cons.1 h with hh | hh
        · exact hh
        · exact absurd hh hm
      subst this
      rw [lookupFile_saveFiles_not_mem _ _ _ _ hm, lookupFile_writeFile_self]

lemma hasKeyB_saveFiles (fs : Files) (db : List Row) (ms : List (Nat × Nat)) (ym : Nat × Nat) :
    hasKeyB (saveFiles fs db ms) ym = (hasKeyB fs ym || decide (ym ∈ ms)) := by
  induction ms generalizing fs with
  | nil => simp [saveFiles_nil]
  | cons m ms ih =>
    rw [saveFiles_cons, ih, hasKeyB_writeFile]
    by_cases h1 : ym = m
    · subst h1
      simp
    · by_cases h2 : ym ∈ ms <;> simp [h1, h2]

lemma keys_saveFiles_nodup (fs : Files) (db : List Row) (ms : List (Nat × Nat))
    (h : (fs.map Prod.fst).Nodup) :
    ((saveFiles fs db ms).map Prod.fst).Nodup := by
  induction ms generalizing fs with
  | nil => exact h
  | cons m ms ih =>
    rw [saveFiles_cons]
    exact ih _ (keys_writeFile_nodup _ _ _ h)

lemma mem_saveFiles (fs : Files) (db : List Row) (ms : List (Nat × Nat))
    (e : (Nat × Nat) × List Row) (h : e ∈ saveFiles fs db ms) :
    (e.1 ∈ ms ∧ e.2 = rowsOfMonth db e.1) ∨ (e ∈ fs ∧ e.1 ∉ ms) := by
  induction ms generalizing fs with
  | nil => exact Or.inr ⟨h, List.not_mem_nil e.1⟩
  | cons m ms ih =>
    rw [saveFiles_cons] at h
    rcases ih _ h with ⟨hmem, hc⟩ | ⟨hmem, hnm⟩
    · exact Or.inl ⟨List.mem_cons_of_mem m hmem, hc⟩
    · rcases mem_writeFile _ _ _ _ hmem with heq | ⟨hfs, hne⟩
      · subst heq
        exact Or.inl ⟨List.mem_cons_self m ms, rfl⟩
      · refine Or.inr ⟨hfs, ?_⟩
        intro hcon
        rcases List.mem_cons.1 hcon with hh | hh
        · exact hne hh
        · exact hnm hh

/-! Lemmas about month slices of the table. -/

lemma rowsOfMonth_append (l1 l2 : List Row) (ym : Nat × Nat) :
    rowsOfMonth (l1 ++ l2) ym = rowsOfMonth l1 ym ++ rowsOfMonth l2 ym := by
  simp [rowsOfMonth]

lemma rowsOfMonth_eq_nil (l : List Row) (ym : Nat × Nat)
    (h : ∀ r ∈ l, (r.date.year, r.date.month) ≠ ym) :
    rowsOfMonth l ym = [] := by
  refine List.filter_eq_nil_iff.2 ?_
  intro r hr
  simp only [decide_eq_true_eq]
  rintro ⟨h1, h2⟩
  exact h r hr (Prod.ext_iff.2 ⟨h1, h2⟩)

lemma mem_rowsOfMonth (db : List Row) (ym : Nat × Nat) (r : Row) :
    r ∈ rowsOfMonth db ym ↔ r ∈ db ∧ (r.date.year, r.date.month) = ym := by
  simp only [rowsOfMonth, List.mem_filter, decide_eq_true_eq]
  constructor
  · rintro ⟨h1, h2, h3⟩
    exact ⟨h1, Prod.ext_iff.2 ⟨h2, h3⟩⟩
  · rintro ⟨h1, h2⟩
    exact ⟨h1, (Prod.ext_iff.1 h2).1, (Prod.ext_iff.1 h2).2⟩

lemma rowsOfMonth_filter (db : List Row) (p : Row → Bool) (ym : Nat × Nat)
    (h : ∀ r ∈ db, (r.date.year, r.date.month) = ym → p r = true) :
    rowsOfMonth (db.filter p) ym = rowsOfMonth db ym := by
  unfold rowsOfMonth
  rw [List.filter_filter]
  refine List.filter_congr ?_
  intro r hr
  by_cases hm : (r.date.year = ym.1 ∧ r.date.month = ym.2)
  · have hp : p r = true := by
      refine h r hr ?_
      rw [hm.1, hm.2]
    simp [hm, hp]
  · simp [hm]

/-- Partition reconstruction: with distinct keys, per-month file contents and
coverage, concatenating the partition files is a permutation of the table. -/
lemma flatten_files_perm (fs : Files) (db : List Row)
    (hnd : (fs.map Prod.fst).Nodup)
    (hcons : ∀ e ∈ fs, e.2 = rowsOfMonth db e.1)
    (hcov : ∀ r ∈ db, hasKeyB fs (r.date.year, r.date.month) = true) :
    List.Perm ((fs.map Prod.snd).flatten) db := by
  induction fs generalizing db with
  | nil =>
    have : db = [] := by
      rcases db with _ | ⟨r, db⟩
      · rfl
      · exact absurd (hcov r (List.mem_cons_self r db)) (by simp [hasKeyB])
    simp [this]
  | cons e fs ih =>
    simp only [List.map_cons, List.flatten_cons]
    have he2 : e.2 = rowsOfMonth db e.1 := hcons e (List.mem_cons_self e fs)
    set p : Row → Bool := fun r => decide (r.date.year = e.1.1 ∧ r.date.month = e.1.2) with hp
    have hsplit : List.Perm (db.filter p ++ db.filter (fun r => !p r)) db :=
      List.filter_append_perm p db
    have hkey : ∀ r ∈ db.filter (fun r => !p r), (r.date.year, r.date.month) ≠ e.1 := by
      intro r hr hcon
      have := (List.mem_filter.1 hr).2
      rw [hp] at this
      simp only [Bool.not_eq_true', decide_eq_false_iff_not] at this
      exact this ⟨congrArg Prod.fst hcon, congrArg Prod.snd hcon⟩
    have htail : List.Perm ((fs.map Prod.snd).flatten) (db.filter (fun r => !p r)) := by
      refine ih (db.filter (fun r => !p r)) ?_ ?_ ?_
      · exact (List.nodup_cons.1 hnd).2
      · intro e1 he1
        have hne : e1.1 ≠ e.1 := by
          intro hcon
          exact (List.nodup_cons.1 hnd).1 (hcon ▸ List.mem_map.2 ⟨e1, he1, rfl⟩)
        rw [hcons e1 (List.mem_cons_of_mem e he1)]
        refine (rowsOfMonth_filter _ _ _ ?_).symm
        intro r hr hm
        simp only [hp, Bool.not_eq_true', decide_eq_false_iff_not]
        rintro ⟨h1, h2⟩
        refine hne ?_
        rw [← hm]
        exact Prod.ext_iff.2 ⟨h1, h2⟩
      · intro r hr
        have hrdb : r ∈ db := (List.mem_filter.1 hr).1
        have := hcov r hrdb
        rw [hasKeyB_iff] at this
        rcases this with ⟨e1, he1, hke⟩
        rcases List.mem_cons.1 he1 with rfl | he1t
        · exact absurd hke.symm (hkey r hr)
        · exact (hasKeyB_iff _ _).2 ⟨e1, he1t, hke⟩
    rw [he2]
    exact (List.Perm.append_left _ htail).trans hsplit

/-! Lemmas about id lookup and month derivation. -/

lemma find?_id_eq_none (db : List Row) (u : Nat) (h : ∀ r ∈ db, r.id ≠ u) :
    db.find? (fun r => decide (r.id = u)) = Option.none :=
  List.find?_eq_none.2 (fun r hr => by simp [h r hr])

lemma find?_id_append_of_none (db1 db2 : List Row) (u : Nat)
    (h : ∀ r ∈ db1, r.id ≠ u) :
    (db1 ++ db2).find? (fun r => decide (r.id = u))
      = db2.find? (fun r => decide (r.id = u)) := by
  rw [List.find?_append, find?_id_eq_none db1 u h, Option.none_or]

lemma find?_id_of_nodup (db : List Row) (r : Row)
    (hnd : (db.map Row.id).Nodup) (hr : r ∈ db) :
    db.find? (fun x => decide (x.id = r.id)) = Option.some r := by
  induction db with
  | nil => cases hr
  | cons a db ih =>
    rw [List.map_cons, List.nodup_cons] at hnd
    rcases List.mem_cons.1 hr with rfl | hmem
    · simp
    · have ha : ¬ (a.id = r.id) := by
        intro hcon
        exact hnd.1 (hcon ▸ List.mem_map.2 ⟨r, hmem, rfl⟩)
      rw [List.find?_cons_of_neg _ (by simpa using ha)]
      exact ih hnd.2 hmem

lemma months_ok_iff (db : List Row) (us : List Nat) :
    (∃ ms, _get_months_from_uuid db us = .ok ms) ↔ ∀ u ∈ us, ∃ r ∈ db, r.id = u := by
  induction us with
  | nil => simp [_get_months_from_uuid]
  | cons u us ih =>
    simp only [_get_months_from_uuid]
    constructor
    · rintro ⟨ms, hms⟩
      rcases hfind : db.find? (fun r => decide (r.id = u)) with _ | r
      · rw [hfind] at hms
        cases hms
      · rw [hfind] at hms
        intro v hv
        rcases List.mem_cons.1 hv with rfl | hvmem
        · have hrv := List.find?_some hfind
          simp only [decide_eq_true_eq] at hrv
          exact ⟨r, List.mem_of_find?_eq_some hfind, hrv⟩
        · rcases hrec : _get_months_from_uuid db us with e | ms1
          · rw [hrec] at hms
            cases hms
          · exact (ih.1 ⟨ms1, hrec⟩) v hvmem
    · intro hall
      rcases hall u (List.mem_cons_self u us) with ⟨r, hrdb, hru⟩
      have hsome : (db.find? (fun x => decide (x.id = u))).isSome := by
        rw [List.find?_isSome]
        exact ⟨r, hrdb, by simp [hru]⟩
      rcases hfind : db.find? (fun x => decide (x.id = u)) with _ | r1
      · rw [hfind] at hsome
        cases hsome
      · rcases ih.2 (fun v hv => hall v (List.mem_cons_of_mem u hv)) with ⟨ms1, hms1⟩
        rw [hfind, hms1]
        exact ⟨_, rfl⟩

lemma months_error_val (db : List Row) (us : List Nat) (e : DBErr)
    (h : _get_months_from_uuid db us = .error e) : e = .indexError := by
  induction us with
  | nil => cases h
  | cons u us ih =>
    simp only [_get_months_from_uuid] at h
    rcases hfind : db.find? (fun r => decide (r.id = u)) with _ | r
    · rw [hfind] at h
      cases h
      rfl
    · rw [hfind] at h
      rcases hrec : _get_months_from_uuid db us with e1 | ms1
      · rw [hrec] at h
        cases h
        exact ih hrec
      · rw [hrec] at h
        cases h

lemma months_error_of_missing (db : List Row) (us : List Nat) (u : Nat)
    (hu : u ∈ us) (h : ∀ r ∈ db, r.id ≠ u) :
    _get_months_from_uuid db us = .error .indexError := by
  rcases hres : _get_months_from_uuid db us with e | ms
  · rw [months_error_val db us e hres]
  · exfalso
    rcases (months_ok_iff db us).1 ⟨ms, hres⟩ u hu with ⟨r, hrdb, hru⟩
    exact h r hrdb hru

lemma mem_months (db : List Row) (us : List Nat) (ms : List (Nat × Nat))
    (h : _get_months_from_uuid db us = .ok ms) (ym : Nat × Nat) :
    ym ∈ ms ↔ ∃ u ∈ us, ∃ r, db.find? (fun x => decide (x.id = u)) = Option.some r ∧
      ym = (r.date.year, r.date.month) := by
  induction us generalizing ms with
  | nil =>
    simp only [_get_months_from_uuid] at h
    cases h
    simp
  | cons u us ih =>
    simp only [_get_months_from_uuid] at h
    rcases hfind : db.find? (fun r => decide (r.id = u)) with _ | r
    · rw [hfind] at h
      cases h
    · rw [hfind] at h
      rcases hrec : _get_months_from_uuid db us with e1 | ms1
      · rw [hrec] at h
        cases h
      · rw [hrec] at h
        cases h
        constructor
        · intro hym
          by_cases hmem : (r.date.year, r.date.month) ∈ ms1
          · rw [if_pos hmem] at hym
            rcases (ih ms1 hrec).1 hym with ⟨v, hv, r1, hr1, hymr⟩
            exact ⟨v, List.mem_cons_of_mem u hv, r1, hr1, hymr⟩
          · rw [if_neg hmem] at hym
            rcases List.mem_cons.1 hym with rfl | hym1
            · exact ⟨u, List.mem_cons_self u us, r, hfind, rfl⟩
            · rcases (ih ms1 hrec).1 hym1 with ⟨v, hv, r1, hr1, hymr⟩
              exact ⟨v, List.mem_cons_of_mem u hv, r1, hr1, hymr⟩
        · rintro ⟨v, hv, r1, hr1, hymr⟩
          rcases List.mem_cons.1 hv with rfl | hv1
          · rw [hfind] at hr1
            cases hr1
            subst hymr
            by_cases hmem : (r.date.year, r.date.month) ∈ ms1
            · rw [if_pos hmem]
              exact hmem
            · rw [if_neg hmem]
              exact List.mem_cons_self _ _
          · have : ym ∈ ms1 := (ih ms1 hrec).2 ⟨v, hv1, r1, hr1, hymr⟩
            by_cases hmem : (r.date.year, r.date.month) ∈ ms1
            · rwa [if_pos hmem]
            · rw [if_neg hmem]
              exact List.mem_cons_of_mem _ this

lemma months_nodup (db : List Row) (us : List Nat) (ms : List (Nat × Nat))
    (h : _get_months_from_uuid db us = .ok ms) : ms.Nodup := by
  induction us generalizing ms with
  | nil =>
    simp only [_get_months_from_uuid] at h
    cases h
    exact List.nodup_nil
  | cons u us ih =>
    simp only [_get_months_from_uuid] at h
    rcases hfind : db.find? (fun r => decide (r.id = u)) with _ | r
    · rw [hfind] at h
      cases h
    · rw [hfind] at h
      rcases hrec : _get_months_from_uuid db us with e1 | ms1
      · rw [hrec] at h
        cases h
      · rw [hrec] at h
        cases h
        by_cases hmem : (r.date.year, r.date.month) ∈ ms1
        · rw [if_pos hmem]
          exact ih ms1 hrec
        · rw [if_neg hmem]
          exact List.nodup_cons.2 ⟨hmem, ih ms1 hrec⟩

/-! Characterization of the mutating operations. -/

lemma apply_dtypes_id (i : Nat) (r : RawRow) (row : Row)
    (h : _apply_dtypes i r = .ok row) : row.id = i := by
  simp only [_apply_dtypes, getCol, coerceFloatE, bind, Except.bind] at h
  iterate 14 (all_goals try split at h)
  all_goals cases h
  all_goals rfl

lemma applyDtypes_uuids_spec (rows : List RawRow) (out : List Row) (n : Nat)
    (h : applyDtypesList (_add_uuids n rows) = .ok out) :
    (∀ r ∈ out, n ≤ r.id ∧ r.id < n + rows.length) ∧ (out.map Row.id).Nodup := by
  induction rows generalizing n out with
  | nil =>
    simp only [_add_uuids, applyDtypesList] at h
    cases h
    simp
  | cons r0 rs ih =>
    simp only [_add_uuids, applyDtypesList] at h
    rcases h1 : _apply_dtypes n r0 with e | row
    · rw [h1] at h
      cases h
    · rw [h1] at h
      rcases h2 : applyDtypesList (_add_uuids (n + 1) rs) with e | rest
      · rw [h2] at h
        cases h
      · rw [h2] at h
        cases h
        have hid := apply_dtypes_id n r0 row h1
        rcases ih rest (n + 1) h2 with ⟨hb, hnd⟩
        refine ⟨?_, ?_⟩
        · intro r hr
          rcases List.mem_cons.1 hr with rfl | hmem
          · rw [hid]
            simp only [List.length_cons]
            omega
          · have := hb r hmem
            simp only [List.length_cons]
            omega
        · rw [List.map_cons, List.nodup_cons]
          refine ⟨?_, hnd⟩
          intro hmem
          rcases List.mem_map.1 hmem with ⟨r, hr, hrid⟩
          have := (hb r hr).1
          omega

lemma find?_new_row (dbOld newRows : List Row) (r : Row)
    (holdlt : ∀ x ∈ dbOld, x.id < r.id ∨ x.id ≠ r.id)
    (hnd : (newRows.map Row.id).Nodup) (hr : r ∈ newRows) :
    (dbOld ++ newRows).find? (fun x => decide (x.id = r.id)) = Option.some r := by
  rw [find?_id_append_of_none]
  · exact find?_id_of_nodup newRows r hnd hr
  · intro x hx
    rcases holdlt x hx with hlt | hne
    · omega
    · exact hne

lemma insert_data_ok_char (s : DBState) (rows : List RawRow) (newRows : List Row)
    (h : applyDtypesList (_add_uuids s.next rows) = .ok newRows)
    (hids : ∀ r ∈ s.db, r.id < s.next) :
    ∃ ms, _get_months_from_uuid (s.db ++ newRows) (newRows.map Row.id) = .ok ms ∧
      insert_data s rows = .ok
        { db := s.db ++ newRows,
          files := saveFiles s.files (s.db ++ newRows) ms,
          next := s.next + rows.length } ∧
      (∀ ym, ym ∈ ms ↔ ∃ r ∈ newRows, ym = (r.date.year, r.date.month)) := by
  rcases applyDtypes_uuids_spec rows newRows s.next h with ⟨hbound, hnodup⟩
  have hfound : ∀ r ∈ newRows,
      (s.db ++ newRows).find? (fun x => decide (x.id = r.id)) = Option.some r := by
    intro r hr
    refine find?_new_row s.db newRows r ?_ hnodup hr
    intro x hx
    have h1 := hids x hx
    have h2 := (hbound r hr).1
    exact Or.inl (by omega)
  have hex : ∃ ms, _get_months_from_uuid (s.db ++ newRows) (newRows.map Row.id) = .ok ms := by
    rw [months_ok_iff]
    intro u hu
    rcases List.mem_map.1 hu with ⟨r, hr, hrid⟩
    exact ⟨r, List.mem_append_right _ hr, hrid⟩
  rcases hex with ⟨ms, hms⟩
  refine ⟨ms, hms, ?_, ?_⟩
  · simp only [insert_data, h, save_db_from_uuid, hms, save_db]
  · intro ym
    rw [mem_months _ _ _ hms ym]
    constructor
    · rintro ⟨u, hu, r1, hr1, hymr⟩
      rcases List.mem_map.1 hu with ⟨r, hr, hrid⟩
      subst hrid
      rw [hfound r hr] at hr1
      injection hr1 with heq
      subst heq
      exact ⟨r, hr, hymr⟩
    · rintro ⟨r, hr, hymr⟩
      exact ⟨r.id, List.mem_map.2 ⟨r, hr, rfl⟩, r, hfound r hr, hymr⟩

lemma insert_record_ok_char (s : DBState) (r : Row)
    (hfresh : ∀ x ∈ s.db, x.id ≠ r.id) :
    insert_record s r = .ok
      { db := s.db ++ [r],
        files := saveFiles s.files (s.db ++ [r]) [(r.date.year, r.date.month)],
        next := s.next } := by
  have hfind : (s.db ++ [r]).find? (fun x => decide (x.id = r.id)) = Option.some r := by
    rw [find?_id_append_of_none _ _ _ hfresh]
    simp
  simp only [insert_record, save_db_from_uuid, _get_months_from_uuid, hfind, save_db]
  simp

lemma delete_data_ok_char (s : DBState) (us : List Nat) (ms : List (Nat × Nat))
    (hms : _get_months_from_uuid s.db us = .ok ms) :
    delete_data s us = .ok
      { db := s.db.filter (fun r => !decide (r.id ∈ us)),
        files := saveFiles s.files (s.db.filter (fun r => !decide (r.id ∈ us))) ms,
        next := s.next } := by
  simp only [delete_data, hms, save_db]

/-! Preservation of the store invariant along runs. -/

lemma partitioned_saveFiles (fs : Files) (dbOld dbNew : List Row)
    (ms : List (Nat × Nat)) (n : Nat)
    (hnd : (fs.map Prod.fst).Nodup)
    (hcons : ∀ e ∈ fs, e.2 = rowsOfMonth dbOld e.1)
    (houts : ∀ ym, ym ∉ ms → rowsOfMonth dbNew ym = rowsOfMonth dbOld ym)
    (hcov : ∀ r ∈ dbNew,
      hasKeyB fs (r.date.year, r.date.month) = true ∨ (r.date.year, r.date.month) ∈ ms) :
    partitioned { db := dbNew, files := saveFiles fs dbNew ms, next := n } := by
  refine ⟨keys_saveFiles_nodup _ _ _ hnd, ?_, ?_⟩
  · intro e he
    rcases mem_saveFiles _ _ _ _ he with ⟨_, hc⟩ | ⟨hfs, hnm⟩
    · exact hc
    · rw [hcons e hfs]
      exact (houts e.1 hnm).symm
  · intro r hr
    rw [hasKeyB_saveFiles]
    rcases hcov r hr with hc | hc
    · rw [hc]
      rfl
    · simp [hc]

lemma dbInv_insert_data (s : DBState) (rows : List RawRow) (s2 : DBState)
    (hinv : dbInv s) (h : insert_data s rows = .ok s2) : dbInv s2 := by
  rcases hinv with ⟨⟨hknd, hcons, hcov⟩, hidnd, hlt⟩
  rcases happl : applyDtypesList (_add_uuids s.next rows) with e | newRows
  · rw [insert_data, happl] at h
    cases h
  · rcases insert_data_ok_char s rows newRows happl hlt with ⟨ms, hms, hres, hmem⟩
    rw [hres] at h
    injection h with h
    subst h
    rcases applyDtypes_uuids_spec rows newRows s.next happl with ⟨hbound, hnodup⟩
    have hnewms : ∀ r ∈ newRows, (r.date.year, r.date.month) ∈ ms := by
      intro r hr
      exact (hmem _).2 ⟨r, hr, rfl⟩
    refine ⟨?_, ?_, ?_⟩
    · refine partitioned_saveFiles s.files s.db (s.db ++ newRows) ms _ hknd hcons ?_ ?_
      · intro ym hym
        rw [rowsOfMonth_append]
        have : rowsOfMonth newRows ym = [] := by
          refine rowsOfMonth_eq_nil _ _ ?_
          intro r hr hcon
          exact hym (hcon ▸ hnewms r hr)
        rw [this, List.append_nil]
      · intro r hr
        rcases List.mem_append.1 hr with hold | hnew
        · exact Or.inl (hcov r hold)
        · exact Or.inr (hnewms r hnew)
    · simp only [List.map_append]
      refine List.Nodup.append hidnd hnodup ?_
      intro u hu1 hu2
      rcases List.mem_map.1 hu1 with ⟨r, hr, hrid⟩
      rcases List.mem_map.1 hu2 with ⟨r1, hr1, hrid1⟩
      have h1 := hlt r hr
      have h2 := (hbound r1 hr1).1
      omega
    · intro r hr
      simp only []
      rcases List.mem_append.1 hr with hold | hnew
      · have := hlt r hold
        omega
      · have := (hbound r hnew).2
        omega

lemma dbInv_insert_record (s : DBState) (r : Row) (s2 : DBState)
    (hinv : dbInv s) (hok : okOpB s (.insertRecord r) = true)
    (h : insert_record s r = .ok s2) : dbInv s2 := by
  rcases hinv with ⟨⟨hknd, hcons, hcov⟩, hidnd, hlt⟩
  simp only [okOpB, Bool.and_eq_true, Bool.not_eq_true', decide_eq_false_iff_not,
    decide_eq_true_eq] at hok
  rcases hok with ⟨hnotin, hltn⟩
  have hfresh : ∀ x ∈ s.db, x.id ≠ r.id := by
    intro x hx hcon
    exact hnotin (hcon ▸ List.mem_map.2 ⟨x, hx, rfl⟩)
  rw [insert_record_ok_char s r hfresh] at h
  injection h with h
  subst h
  refine ⟨?_, ?_, ?_⟩
  · refine partitioned_saveFiles s.files s.db (s.db ++ [r]) _ _ hknd hcons ?_ ?_
    · intro ym hym
      rw [rowsOfMonth_append]
      have hnil : rowsOfMonth [r] ym = [] := by
        refine rowsOfMonth_eq_nil _ _ ?_
        intro x hx hcon
        rcases List.mem_singleton.1 hx with rfl
        exact hym (hcon ▸ List.mem_singleton_self _)
      rw [hnil, List.append_nil]
    · intro x hx
      rcases List.mem_append.1 hx with hold | hnew
      · exact Or.inl (hcov x hold)
      · rcases List.mem_singleton.1 hnew with rfl
        exact Or.inr (List.mem_singleton_self _)
  · simp only [List.map_append, List.map_cons, List.map_nil]
    refine List.Nodup.append hidnd (List.nodup_singleton _) ?_
    intro u hu1 hu2
    rcases List.mem_singleton.1 hu2 with rfl
    exact hnotin hu1
  · intro x hx
    rcases List.mem_append.1 hx with hold | hnew
    · exact hlt x hold
    · rcases List.mem_singleton.1 hnew with rfl
      exact hltn

lemma dbInv_delete_data (s : DBState) (us : List Nat) (s2 : DBState)
    (hinv : dbInv s) (h : delete_data s us = .ok s2) : dbInv s2 := by
  rcases hinv with ⟨⟨hknd, hcons, hcov⟩, hidnd, hlt⟩
  rcases hms : _get_months_from_uuid s.db us with e | ms
  · rw [delete_data, hms] at h
    cases h
  · rw [delete_data_ok_char s us ms hms] at h
    injection h with h
    subst h
    have hdelms : ∀ r ∈ s.db, r.id ∈ us → (r.date.year, r.date.month) ∈ ms := by
      intro r hr hrid
      refine (mem_months _ _ _ hms _).2 ⟨r.id, hrid, r, ?_, rfl⟩
      exact find?_id_of_nodup s.db r hidnd hr
    have hsub : List.Sublist (s.db.filter (fun r => !decide (r.id ∈ us))) s.db :=
      List.filter_sublist _
    refine ⟨?_, ?_, ?_⟩
    · refine partitioned_saveFiles s.files s.db _ ms _ hknd hcons ?_ ?_
      · intro ym hym
        refine rowsOfMonth_filter _ _ _ ?_
        intro r hr hrm
        simp only [Bool.not_eq_true', decide_eq_false_iff_not]
        intro hrid
        exact hym (hrm ▸ hdelms r hr hrid)
      · intro r hr
        exact Or.inl (hcov r (hsub.mem hr))
    · exact hidnd.sublist (hsub.map Row.id)
    · intro r hr
      exact hlt r (hsub.mem hr)

lemma dbInv_runOp (s : DBState) (op : Op)
    (hinv : dbInv s) (hok : okOpB s op = true) : dbInv (runOp s op) := by
  cases op with
  | insertData rows =>
    simp only [runOp]
    rcases hres : insert_data s rows with e | s2
    · exact hinv
    · exact dbInv_insert_data s rows s2 hinv hres
  | insertRecord r =>
    simp only [runOp]
    rcases hres : insert_record s r with e | s2
    · exact hinv
    · exact dbInv_insert_record s r s2 hinv hok hres
  | deleteData us =>
    simp only [runOp]
    rcases hres : delete_data s us with e | s2
    · exact hinv
    · exact dbInv_delete_data s us s2 hinv hres

lemma dbInv_run (s : DBState) (ops : List Op)
    (hinv : dbInv s) (hok : okRunB s ops = true) : dbInv (run s ops) := by
  induction ops generalizing s with
  | nil => exact hinv
  | cons op ops ih =>
    simp only [okRunB, Bool.and_eq_true] at hok
    exact ih (runOp s op) (dbInv_runOp s op hinv hok.1) hok.2

/-- Successive equality masks amount to one conjunctive filter. -/
lemma foldl_filter_all (db : List Row) (fs : List ColFilter) :
    fs.foldl (fun t f => t.filter (matchesFilter f)) db
      = db.filter (fun r => fs.all (fun f => matchesFilter f r)) := by
  induction fs generalizing db with
  | nil => simp
  | cons f fs ih =>
    rw [List.foldl_cons, ih, List.filter_filter]
    refine List.filter_congr ?_
    intro r hr
    rw [List.all_cons, Bool.and_comm]

/-! Concrete fixtures used by the witnesses and counterexamples. -/

def storeStr : String := "Store"

def emptyStr : String := ""

/-- A row dated 2022-01-10 with id 0. -/
def rowA : Row :=
  { id := 0, date := ⟨2022, 1, 10⟩, payee := Option.none, cat := Option.none,
    memo := Option.none, account := Option.none, inflow := 0, outflow := 0,
    reconciled := false, amount := 5 }

/-- A pre-identified record (id 3) dated 2023-07-02, as the external Record
collaborator would hand to insert_record. -/
def rowC : Row :=
  { id := 3, date := ⟨2023, 7, 2⟩, payee := Option.none, cat := Option.none,
    memo := Option.none, account := Option.none, inflow := 0, outflow := 2,
    reconciled := true, amount := 2 }

/-- The raw record of the spec scenario, with the registry defaults of
`TransactionsDBSchema.get_non_mandatory_cols` already present (category and
memo empty string, account None, inflow and outflow 0, reconciled False). -/
def rawStoreDefault : RawRow :=
  { date := Option.some (.dateV ⟨2023, 3, 15⟩), payee := Option.some (.str storeStr),
    cat := Option.some (.str emptyStr), memo := Option.some (.str emptyStr),
    account := Option.some .noneV, inflow := Option.some (.num 0),
    outflow := Option.some (.num 0), reconciled := Option.some (.boolean false),
    amount := Option.some (.num 42.5) }

/-- The raw record of the spec scenario exactly as the claim words it:
only date (2023-03-15), payee (Store) and amount (42.50) supplied, every
other column absent. -/
def rawStoreBare : RawRow :=
  { date := Option.some (.dateV ⟨2023, 3, 15⟩), payee := Option.some (.str storeStr),
    cat := Option.none, memo := Option.none, account := Option.none,
    inflow := Option.none, outflow := Option.none, reconciled := Option.none,
    amount := Option.some (.num 42.5) }

/-- The row `rawStoreDefault` coerces to, given its generated id. -/
def storeRow (i : Nat) : Row :=
  { id := i, date := ⟨2023, 3, 15⟩, payee := Option.some (.str storeStr),
    cat := Option.some (.str emptyStr), memo := Option.some (.str emptyStr),
    account := Option.none, inflow := 0, outflow := 0,
    reconciled := false, amount := 42.5 }

/-- A tiny connected store: one partition file 2022/01 holding `rowA`, uuid
generator past id 0. -/
def stateA : DBState := connectState [((2022, 1), [rowA])] 1

/-- A connected store used in run witnesses: same disk state as `stateA` but
with more uuids already consumed by the generator. -/
def stateB : DBState := connectState [((2022, 1), [rowA])] 5

/-- An empty store over an empty root directory. -/
def emptyStore : DBState := connectState [] 0

/-- A run touching all three mutating operations. -/
def opsW : List Op :=
  [.insertData [rawStoreDefault], .insertRecord rowC, .deleteData [0]]

/-! Claim theorems. -/

/-- C6: for every filter mapping over schema columns, get_data_by_col_val
returns exactly the rows of the in-memory table matching every given
column/value equality simultaneously (logical AND), and an empty mapping
returns the full table. -/
theorem get_data_by_col_val_spec (s : DBState) (filters : List ColFilter) :
    get_data_by_col_val s filters
      = s.db.filter (fun r => filters.all (fun f => matchesFilter f r)) ∧
    get_data_by_col_val s [] = s.db :=
  ⟨foldl_filter_all s.db filters, rfl⟩

/-- C7: _get_months_from_uuid returns the deduplicated set of (year, month)
pairs taken from the first matching row of each id, and raises an
IndexError as soon as some id has no matching row. -/
theorem months_from_uuid_spec (db : List Row) (us : List Nat) :
    ((∀ u ∈ us, ∃ r ∈ db, r.id = u) →
      ∃ ms, _get_months_from_uuid db us = .ok ms ∧ ms.Nodup ∧
        ∀ ym, (ym ∈ ms ↔ ∃ u ∈ us, ∃ r,
          db.find? (fun x => decide (x.id = u)) = Option.some r ∧
          ym = (r.date.year, r.date.month))) ∧
    (∀ u ∈ us, (∀ r ∈ db, r.id ≠ u) →
      _get_months_from_uuid db us = .error .indexError) := by
  constructor
  · intro hall
    rcases (months_ok_iff db us).2 hall with ⟨ms, hms⟩
    exact ⟨ms, hms, months_nodup _ _ _ hms, fun ym => mem_months _ _ _ hms ym⟩
  · intro u hu hmiss
    exact months_error_of_missing db us u hu hmiss

/-- Witness for C7 on a concrete store: both a successful derivation and the
IndexError on a missing id. -/
theorem months_from_uuid_spec_witness :
    (∃ ms, _get_months_from_uuid [rowA] [0] = .ok ms ∧ ms.Nodup ∧
      ∀ ym, (ym ∈ ms ↔ ∃ u ∈ [0], ∃ r,
        List.find? (fun x => decide (x.id = u)) [rowA] = Option.some r ∧
        ym = (r.date.year, r.date.month))) ∧
    _get_months_from_uuid [rowA] [5] = .error .indexError :=
  ⟨(months_from_uuid_spec [rowA] [0]).1 (by decide),
   (months_from_uuid_spec [rowA] [5]).2 5 (by decide) (by decide)⟩

/-- C8: save_db writes, for each requested partition, exactly the current
in-memory rows of that month (independent of previous file contents),
touches no other file, and calling it twice in a row with the same keys
and no intervening mutation leaves every file with identical rows. -/
theorem save_db_deterministic_idempotent (s : DBState) (ms : List (Nat × Nat)) :
    (∀ ym ∈ ms, lookupFile (save_db s ms).files ym
      = Option.some (rowsOfMonth s.db ym)) ∧
    (∀ ym, ym ∉ ms → lookupFile (save_db s ms).files ym = lookupFile s.files ym) ∧
    (∀ ym, lookupFile (save_db (save_db s ms) ms).files ym
      = lookupFile (save_db s ms).files ym) := by
  refine ⟨?_, ?_, ?_⟩
  · intro ym h
    exact lookupFile_saveFiles_mem _ _ _ _ h
  · intro ym h
    exact lookupFile_saveFiles_not_mem _ _ _ _ h
  · intro ym
    simp only [save_db]
    by_cases h : ym ∈ ms
    · rw [lookupFile_saveFiles_mem _ _ _ _ h, lookupFile_saveFiles_mem _ _ _ _ h]
    · rw [lookupFile_saveFiles_not_mem _ _ _ _ h]

/-- Witness for C8 on a concrete store and partition list. -/
theorem save_db_deterministic_idempotent_witness :
    (2022, 1) ∈ [((2022 : Nat), (1 : Nat))] ∧
    lookupFile (save_db stateA [(2022, 1)]).files (2022, 1)
      = Option.some (rowsOfMonth stateA.db (2022, 1)) ∧
    lookupFile (save_db (save_db stateA [(2022, 1)]) [(2022, 1)]).files (2022, 1)
      = lookupFile (save_db stateA [(2022, 1)]).files (2022, 1) :=
  ⟨by decide,
   (save_db_deterministic_idempotent stateA [(2022, 1)]).1 (2022, 1) (by decide),
   (save_db_deterministic_idempotent stateA [(2022, 1)]).2.2 (2022, 1)⟩

/-- C9: disconnect fails with the unsupported-operation error in every store
state, and (being a single raise) leaves the store unchanged. -/
theorem disconnect_always_fails (s : DBState) :
    disconnect s = .error DBErr.notImplemented ∧
    (match disconnect s with
     | .ok s1 => s1
     | .error _ => s) = s :=
  ⟨rfl, rfl⟩

/-- C10: delete_data with an id absent from the table raises the not-found
IndexError during the month derivation that runs before any mutation, so
the in-memory table and every partition file are left exactly as they
were. -/
theorem delete_data_not_found_atomic (s : DBState) (us : List Nat) (u : Nat)
    (hu : u ∈ us) (hmiss : ∀ r ∈ s.db, r.id ≠ u) :
    delete_data s us = .error DBErr.indexError ∧ runOp s (.deleteData us) = s := by
  have herr := months_error_of_missing s.db us u hu hmiss
  have hdel : delete_data s us = .error DBErr.indexError := by
    simp only [delete_data, herr]
  refine ⟨hdel, ?_⟩
  simp only [runOp, hdel]

/-- Witness for C10: deleting a missing id from a concrete store fails and
changes nothing. -/
theorem delete_data_not_found_atomic_witness :
    5 ∈ [5] ∧ (∀ r ∈ stateA.db, r.id ≠ 5) ∧
    delete_data stateA [5] = .error DBErr.indexError ∧
    runOp stateA (.deleteData [5]) = stateA :=
  ⟨by decide, by decide, delete_data_not_found_atomic stateA [5] 5 (by decide) (by decide)⟩

/-- C2: inserting one well-formed record (every schema column present and
coercible, so `_apply_dtypes` succeeds on it) and then looking up the id
generated for it returns exactly one row, equal to the record after type
coercion; the generated id is the next fresh uuid. -/
theorem insert_roundtrip (s : DBState) (raw : RawRow) (row : Row)
    (hids : ∀ r ∈ s.db, r.id < s.next)
    (hco : _apply_dtypes s.next raw = .ok row) :
    ∃ s2, insert_data s [raw] = .ok s2 ∧
      get_data_by_id s2 [row.id] = [row] ∧ row.id = s.next := by
  have happl : applyDtypesList (_add_uuids s.next [raw]) = .ok [row] := by
    simp only [_add_uuids, applyDtypesList, hco]
  rcases insert_data_ok_char s [raw] [row] happl hids with ⟨ms, hms, hres, hmem⟩
  have hid := apply_dtypes_id _ _ _ hco
  refine ⟨_, hres, ?_, hid⟩
  simp only [get_data_by_id]
  rw [List.filter_append]
  have h1 : s.db.filter (fun r => decide (r.id ∈ [row.id])) = [] := by
    refine List.filter_eq_nil_iff.2 ?_
    intro r hr
    have hlt := hids r hr
    simp only [List.mem_singleton, decide_eq_true_eq]
    omega
  have h2 : [row].filter (fun r => decide (r.id ∈ [row.id])) = [row] := by
    simp
  rw [h1, h2, List.nil_append]

/-- Witness for C2: round trip of the defaulted Store record through a
concrete one-row store. -/
theorem insert_roundtrip_witness :
    (∀ r ∈ stateA.db, r.id < stateA.next) ∧
    _apply_dtypes stateA.next rawStoreDefault = .ok (storeRow 1) ∧
    ∃ s2, insert_data stateA [rawStoreDefault] = .ok s2 ∧
      get_data_by_id s2 [(storeRow 1).id] = [storeRow 1] ∧
      (storeRow 1).id = stateA.next :=
  ⟨by decide, by rfl,
   insert_roundtrip stateA rawStoreDefault (storeRow 1) (by decide) (by rfl)⟩

/-- C3: for ids all present in the table, delete_data derives the affected
partitions from the pre-deletion table, removes exactly the rows whose id
is listed, rewrites exactly the derived partitions from the post-deletion
state (a zero-row file when a partition empties), and leaves every other
partition file untouched. -/
theorem delete_data_spec (s : DBState) (us : List Nat)
    (hpres : ∀ u ∈ us, ∃ r ∈ s.db, r.id = u) :
    ∃ ms s2, _get_months_from_uuid s.db us = .ok ms ∧
      delete_data s us = .ok s2 ∧
      s2.db = s.db.filter (fun r => !decide (r.id ∈ us)) ∧
      (∀ ym ∈ ms, lookupFile s2.files ym = Option.some (rowsOfMonth s2.db ym)) ∧
      (∀ ym, ym ∉ ms → lookupFile s2.files ym = lookupFile s.files ym) := by
  rcases (months_ok_iff s.db us).2 hpres with ⟨ms, hms⟩
  refine ⟨ms, _, hms, delete_data_ok_char s us ms hms, rfl, ?_, ?_⟩
  · intro ym h
    exact lookupFile_saveFiles_mem _ _ _ _ h
  · intro ym h
    exact lookupFile_saveFiles_not_mem _ _ _ _ h

/-- Witness for C3: the spec scenario itself, deleting the only row of the
2022/01 partition of a concrete store. -/
theorem delete_data_spec_witness :
    (∀ u ∈ [0], ∃ r ∈ stateA.db, r.id = u) ∧
    ∃ ms s2, _get_months_from_uuid stateA.db [0] = .ok ms ∧
      delete_data stateA [0] = .ok s2 ∧
      s2.db = stateA.db.filter (fun r => !decide (r.id ∈ [0])) ∧
      (∀ ym ∈ ms, lookupFile s2.files ym = Option.some (rowsOfMonth s2.db ym)) ∧
      (∀ ym, ym ∉ ms → lookupFile s2.files ym = lookupFile stateA.files ym) :=
  ⟨by decide, delete_data_spec stateA [0] (by decide)⟩

/-- C4 counterexample: inserting a record that supplies only date, payee and
amount does NOT produce a 2023/03 partition file with defaulted columns:
insert_data raises a missing-column KeyError (the code never backfills the
registry defaults) and writes no file at all. -/
theorem insert_bare_mandatory_fails :
    insert_data emptyStore [rawStoreBare] = .error DBErr.keyError ∧
    lookupFile (runOp emptyStore (.insertData [rawStoreBare])).files (2023, 3)
      = Option.none :=
  ⟨rfl, rfl⟩

/-- C4 (amended): inserting a record dated 2023-03-15 with payee Store,
amount 42.50 and the registry defaults already present on the non-mandatory
columns produces a partition file under 2023/03 holding exactly one row
with category empty, memo empty, account none, inflow 0, outflow 0,
reconciled false, amount 42.50, under a freshly generated id distinct from
all prior ids. -/
theorem insert_with_defaults_scenario (s : DBState)
    (hids : ∀ r ∈ s.db, r.id < s.next)
    (hempty : rowsOfMonth s.db (2023, 3) = []) :
    ∃ s2, insert_data s [rawStoreDefault] = .ok s2 ∧
      lookupFile s2.files (2023, 3) = Option.some [storeRow s.next] ∧
      (storeRow s.next).id ∉ s.db.map Row.id := by
  have hco : _apply_dtypes s.next rawStoreDefault = .ok (storeRow s.next) := rfl
  have happl : applyDtypesList (_add_uuids s.next [rawStoreDefault])
      = .ok [storeRow s.next] := by
    simp only [_add_uuids, applyDtypesList, hco]
  rcases insert_data_ok_char s [rawStoreDefault] [storeRow s.next] happl hids with
    ⟨ms, hms, hres, hmem⟩
  have hm : (2023, 3) ∈ ms :=
    (hmem _).2 ⟨storeRow s.next, List.mem_singleton_self _, rfl⟩
  refine ⟨_, hres, ?_, ?_⟩
  · rw [lookupFile_saveFiles_mem _ _ _ _ hm, rowsOfMonth_append, hempty, List.nil_append]
    rfl
  · intro hcon
    rcases List.mem_map.1 hcon with ⟨r, hr, hrid⟩
    have hlt := hids r hr
    have : r.id = s.next := hrid
    omega

/-- Witness for C4 (amended): running the scenario on the empty store. -/
theorem insert_with_defaults_scenario_witness :
    (∀ r ∈ emptyStore.db, r.id < emptyStore.next) ∧
    rowsOfMonth emptyStore.db (2023, 3) = [] ∧
    ∃ s2, insert_data emptyStore [rawStoreDefault] = .ok s2 ∧
      lookupFile s2.files (2023, 3) = Option.some [storeRow emptyStore.next] ∧
      (storeRow emptyStore.next).id ∉ emptyStore.db.map Row.id :=
  ⟨by decide, by decide,
   insert_with_defaults_scenario emptyStore (by decide) (by decide)⟩

/-- C5 counterexample: insert_record uses the id already carried by the
caller-supplied record with no uniqueness check, so inserting the same
pre-identified record twice leaves two rows sharing one id. -/
theorem insert_record_duplicate_id :
    ¬ (((run (connectState [] 1) [.insertRecord rowA, .insertRecord rowA]).db.map
        Row.id).Nodup) := by
  decide

/-- C5 (amended): insert_data generates each id itself at insert time (the
input carries no usable id column) and insert_record trusts the id already
assigned to the record by the external uuid collaborator; provided every
such record id is fresh, as the collaborator guarantees, no two rows of
the table ever share an id along any run from a connected store. -/
theorem ids_unique_run (files0 : Files) (n : Nat) (ops : List Op)
    (h0 : dbInv (connectState files0 n))
    (hok : okRunB (connectState files0 n) ops = true) :
    ((run (connectState files0 n) ops).db.map Row.id).Nodup :=
  (dbInv_run _ _ h0 hok).2.1

/-- Witness for C5 (amended): a run with all three operation kinds on a
concrete connected store keeps ids unique. -/
theorem ids_unique_run_witness :
    dbInv (connectState [((2022, 1), [rowA])] 5) ∧
    okRunB (connectState [((2022, 1), [rowA])] 5) opsW = true ∧
    ((run (connectState [((2022, 1), [rowA])] 5) opsW).db.map Row.id).Nodup :=
  ⟨by decide, by decide,
   ids_unique_run [((2022, 1), [rowA])] 5 opsW (by decide) (by decide)⟩

/-- C1: along every run of insert_data / insert_record / delete_data calls
from a connected store (with the uuid collaborator honoring its freshness
contract), the partition files keep holding exactly the rows of their
(year, month), every table row has its partition file, and concatenating
all partition files reproduces the in-memory table up to order. -/
theorem partition_decomposition_run (files0 : Files) (n : Nat) (ops : List Op)
    (h0 : dbInv (connectState files0 n))
    (hok : okRunB (connectState files0 n) ops = true) :
    partitioned (run (connectState files0 n) ops) ∧
    List.Perm (((run (connectState files0 n) ops).files.map Prod.snd).flatten)
      (run (connectState files0 n) ops).db := by
  rcases dbInv_run _ _ h0 hok with ⟨⟨hknd, hcons, hcov⟩, _, _⟩
  exact ⟨⟨hknd, hcons, hcov⟩, flatten_files_perm _ _ hknd hcons hcov⟩

/-- Witness for C1: a run with all three operation kinds on a concrete
connected store keeps the partition decomposition lossless. -/
theorem partition_decomposition_run_witness :
    dbInv (connectState [((2022, 1), [rowA])] 5) ∧
    okRunB (connectState [((2022, 1), [rowA])] 5) opsW = true ∧
    partitioned (run (connectState [((2022, 1), [rowA])] 5) opsW) ∧
    List.Perm
      (((run (connectState [((2022, 1), [rowA])] 5) opsW).files.map Prod.snd).flatten)
      (run (connectState [((2022, 1), [rowA])] 5) opsW).db :=
  ⟨by decide, by decide,
   partition_decomposition_run [((2022, 1), [rowA])] 5 opsW (by decide) (by decide)⟩

end FinDash
